import Mathlib

/-!
# Verification of `asyncrt_utils.h` (namespace `xbox::services::cppresturi::utility`)

A shallow embedding of the `datetime` class, the free `operator-` on two
`datetime` values, `details::str_icmp`, `details::is_alnum`, `cmp::icmp` and
the constructor of `nonce_generator`, together with a model of the base64
functions the header declares without a body.

Machine integers are natural numbers (or integers) with the reduction modulo
`2 ^ w` written out wherever the C++ arithmetic is performed in a `w`-bit
unsigned type.  A value of an unsigned `w`-bit C++ type is a natural number
below `2 ^ w`; the theorems carry that bound as a hypothesis on their inputs.
-/

namespace utility

/-! ## Machine arithmetic -/

/-- Number of values of `uint64_t` (`datetime::interval_type`). -/
def UINT64_MOD : Nat := 2 ^ 64

/-- Number of values of `unsigned int` (32 bits on every supported target). -/
def UINT32_MOD : Nat := 2 ^ 32

/-- Addition performed in `uint64_t`. -/
def add64 (a b : Nat) : Nat := (a + b) % UINT64_MOD

/-- Subtraction performed in `uint64_t` (operands already of that type). -/
def sub64 (a b : Nat) : Nat := (a + (UINT64_MOD - b % UINT64_MOD)) % UINT64_MOD

/-- Multiplication performed in `uint64_t`. -/
def mul64 (a b : Nat) : Nat := (a * b) % UINT64_MOD

/-- Conversion `static_cast<unsigned int>(x)` of an unsigned value: reduction
modulo `2 ^ 32`. -/
def to_unsigned_int (x : Nat) : Nat := x % UINT32_MOD

/-- Conversion `static_cast<int>(x)` of an unsigned value: the 32-bit two's
complement reading of the low 32 bits. -/
def to_int (x : Nat) : Int :=
  if x % UINT32_MOD < 2 ^ 31 then ((x % UINT32_MOD : Nat) : Int)
  else ((x % UINT32_MOD : Nat) : Int) - (UINT32_MOD : Int)

/-! ## `class datetime` -/

/-- The class `datetime`: its only data member is `m_interval`, a count of
100 ns ticks stored in a `uint64_t`. -/
structure datetime where
  m_interval : Nat
  deriving DecidableEq, Repr

namespace datetime

/-- A `datetime` whose member is a value of `uint64_t`. -/
def wf (t : datetime) : Prop := t.m_interval < UINT64_MOD

instance (t : datetime) : Decidable t.wf := by
  unfold wf; infer_instance

/-- The constant `static_cast<interval_type>(10000)`. -/
def _msTicks : Nat := 10000 % UINT64_MOD

/-- The constant `1000*_msTicks`. -/
def _secondTicks : Nat := mul64 1000 _msTicks

/-- The constant `60*_secondTicks`. -/
def _minuteTicks : Nat := mul64 60 _secondTicks

/-- The constant `60*60*_secondTicks`. -/
def _hourTicks : Nat := mul64 (60 * 60) _secondTicks

/-- The constant `24*60*60*_secondTicks`. -/
def _dayTicks : Nat := mul64 (24 * 60 * 60) _secondTicks

/-- The enumerator `utc_timestamp_invalid = static_cast<interval_type>(-1)`. -/
def utc_timestamp_invalid : Nat := Int.toNat (Int.emod (-1) (UINT64_MOD : Int))

/-- The default constructor `datetime() : m_interval(0)`. -/
def ctor_default : datetime := ⟨0⟩

/-- The member `to_interval()`. -/
def to_interval (t : datetime) : Nat := t.m_interval

/-- The member `operator- (interval_type value)`:
`datetime(m_interval - value)`. -/
def operator_sub (t : datetime) (value : Nat) : datetime :=
  ⟨sub64 t.m_interval value⟩

/-- The member `operator+ (interval_type value)`:
`datetime(m_interval + value)`. -/
def operator_add (t : datetime) (value : Nat) : datetime :=
  ⟨add64 t.m_interval value⟩

/-- The member `operator== (datetime dt)`. -/
def operator_eq (t dt : datetime) : Bool := t.m_interval == dt.m_interval

/-- The member `operator!= (const datetime& dt)`. -/
def operator_ne (t dt : datetime) : Bool := !(operator_eq t dt)

/-- The static `from_milliseconds(unsigned int milliseconds)`. -/
def from_milliseconds (milliseconds : Nat) : Nat := mul64 milliseconds _msTicks

/-- The static `from_seconds(unsigned int seconds)`. -/
def from_seconds (seconds : Nat) : Nat := mul64 seconds _secondTicks

/-- The static `from_minutes(unsigned int minutes)`. -/
def from_minutes (minutes : Nat) : Nat := mul64 minutes _minuteTicks

/-- The static `from_hours(unsigned int hours)`. -/
def from_hours (hours : Nat) : Nat := mul64 hours _hourTicks

/-- The static `from_days(unsigned int days)`. -/
def from_days (days : Nat) : Nat := mul64 days _dayTicks

/-- The member `is_initialized()`. -/
def is_initialized (t : datetime) : Bool := t.m_interval != 0

/-- The static `utc_timestamp()`.  The body of `utc_now()` is not part of the
header, so the clock reading it returns is the argument `utc_now`.  The literal
`11644473600LL` is converted to the unsigned 64-bit type of `seconds` for both
the comparison and the subtraction. -/
def utc_timestamp (utc_now : datetime) : Nat :=
  let seconds := utc_now.to_interval / _secondTicks
  if seconds ≥ 11644473600 % UINT64_MOD then
    sub64 seconds (11644473600 % UINT64_MOD)
  else
    utc_timestamp_invalid

end datetime

/-- The free function `int operator- (datetime t1, datetime t2)`: the tick
difference is taken in `uint64_t`, divided by `10 * 1000 * 1000` in that type
and converted to `int`. -/
def operator_sub (t1 t2 : datetime) : Int :=
  let diff := sub64 t1.m_interval t2.m_interval
  let diff := diff / ((10 * 1000 * 1000) % UINT64_MOD)
  to_int diff

/-- The difference the specification describes for `t1 - t2`: the signed tick
delta, as a mathematical integer, divided by 10,000,000 with truncation. -/
def spec_signed_seconds (t1 t2 : datetime) : Int :=
  Int.tdiv ((t1.to_interval : Int) - (t2.to_interval : Int)) 10000000

/-! ## `details::str_icmp` -/

/-- A `utility::string_t`, as the list of its code units. -/
abbrev string_t := List Nat

/-- The member `c_str()` as the C comparison functions read it: the code units
before the first terminating zero. -/
def c_str (s : string_t) : List Nat := s.takeWhile (fun c => c != 0)

/-- Case folding of the C library in the "C" locale: `A`..`Z` to `a`..`z`. -/
def c_tolower (c : Nat) : Nat := if 65 ≤ c ∧ c ≤ 90 then c + 32 else c

/-- The C library function `strcasecmp` (POSIX), on the code units two C strings
hold before their terminator: zero when the strings agree after case folding,
otherwise the difference of the first pair of folded units that differ (the
terminator counts as unit 0). `_wcsicmp`, the wide-character function of the
Microsoft C runtime, has the same contract. -/
def strcasecmp : List Nat → List Nat → Int
  | [], [] => 0
  | [], r :: _ => (0 : Int) - (c_tolower r : Int)
  | l :: _, [] => (c_tolower l : Int)
  | l :: ls, r :: rs =>
    if c_tolower l = c_tolower r then strcasecmp ls rs
    else (c_tolower l : Int) - (c_tolower r : Int)

/-- The Microsoft C runtime function `_wcsicmp`. -/
def _wcsicmp (l r : List Nat) : Int := strcasecmp l r

/-- The function `details::str_icmp`.  The flag `win32` selects the branch of
the `#ifdef _WIN32`: `_wcsicmp(...) == 0` when set, and otherwise
`return strcasecmp(...)`, whose `int` is converted to `bool` (non-zero is
`true`). -/
def str_icmp (win32 : Bool) (left right : string_t) : Bool :=
  if win32 then _wcsicmp (c_str left) (c_str right) == 0
  else strcasecmp (c_str left) (c_str right) != 0

/-- Equivalence of two strings under case-insensitive comparison: same length
and equal unit by unit after case folding. -/
def icase_equiv (left right : string_t) : Prop :=
  left.map c_tolower = right.map c_tolower

instance (left right : string_t) : Decidable (icase_equiv left right) := by
  unfold icase_equiv; infer_instance

/-! ## `class nonce_generator` -/

/-- The class `nonce_generator`: the engine `m_random` is represented by the
seed its constructor was given, next to the member `m_length`. -/
structure nonce_generator where
  m_random : Nat
  m_length : Int
  deriving DecidableEq, Repr

namespace nonce_generator

/-- The enumerator `default_length = 32`. -/
def default_length : Int := 32

/-- The constructor `nonce_generator(int length)`:
`m_random(static_cast<unsigned int>(utility::datetime::utc_timestamp()))`,
`m_length(length)`.  The clock reading of `utc_now()` is the argument
`utc_now`. -/
def ctor (utc_now : datetime) (length : Int) : nonce_generator :=
  ⟨to_unsigned_int (datetime.utc_timestamp utc_now), length⟩

end nonce_generator

/-! ## `details::is_alnum` -/

/-- The function `details::is_alnum(char ch)`.  The argument is the value of the
`char` after integer promotion: `-128..127` where `char` is signed, `0..255`
where it is unsigned.  The literals are `'0'` = 48, `'9'` = 57, `'A'` = 65,
`'Z'` = 90, `'a'` = 97, `'z'` = 122. -/
def is_alnum (ch : Int) : Bool :=
  (ch ≥ 48 && ch ≤ 57)
    || (ch ≥ 65 && ch ≤ 90)
    || (ch ≥ 97 && ch ≤ 122)

/-- The 62 ASCII alphanumeric characters. -/
def ascii_alnum : List Char :=
  ['0', '1', '2', '3', '4', '5', '6', '7', '8', '9',
   'A', 'B', 'C', 'D', 'E', 'F', 'G', 'H', 'I', 'J', 'K', 'L', 'M',
   'N', 'O', 'P', 'Q', 'R', 'S', 'T', 'U', 'V', 'W', 'X', 'Y', 'Z',
   'a', 'b', 'c', 'd', 'e', 'f', 'g', 'h', 'i', 'j', 'k', 'l', 'm',
   'n', 'o', 'p', 'q', 'r', 's', 't', 'u', 'v', 'w', 'x', 'y', 'z']

/-- The value of a `char` that holds the byte `b`: the byte itself where `char`
is unsigned, its two's complement reading where `char` is signed. -/
def char_of_byte (signed_char : Bool) (b : Nat) : Int :=
  if signed_char && b ≥ 128 then (b : Int) - 256 else (b : Int)

/-! ## `class cmp` -/

namespace cmp

/-- The private static `cmp::tolower(char c)`; `'A'` = 65, `'Z'` = 90,
`'a'` = 97, and `c - 'A' + 'a'` lies in `97..122`, which the cast to `char`
leaves unchanged. -/
def tolower (c : Int) : Int :=
  if c ≥ 65 ∧ c ≤ 90 then c - 65 + 97 else c

/-- The loop of `cmp::icmp` from index `i` on, with `n` the number of
iterations left before `i` reaches `left.size()`.  With none left the code
after the loop runs: `if (i < right.size()) return -1; return 0;`. -/
def icmp_loop (left right : List Int) : Nat → Nat → Int
  | 0, i => if i < right.length then -1 else 0
  | n + 1, i =>
    if i = right.length then 1
    else
      let l := tolower (left.getD i 0)
      let r := tolower (right.getD i 0)
      if l > r then 1
      else if l < r then -1
      else icmp_loop left right n (i + 1)

/-- The static `cmp::icmp(std::string left, std::string right)`: the loop starts
at index 0 and runs at most `left.size()` times. -/
def icmp (left right : List Int) : Int :=
  icmp_loop left right left.length 0

end cmp

/-- The upper-case letters `'A'`-`'Z'`. -/
def ascii_upper : List Char :=
  ['A', 'B', 'C', 'D', 'E', 'F', 'G', 'H', 'I', 'J', 'K', 'L', 'M',
   'N', 'O', 'P', 'Q', 'R', 'S', 'T', 'U', 'V', 'W', 'X', 'Y', 'Z']

/-- The lower-case letters `'a'`-`'z'`. -/
def ascii_lower : List Char :=
  ['a', 'b', 'c', 'd', 'e', 'f', 'g', 'h', 'i', 'j', 'k', 'l', 'm',
   'n', 'o', 'p', 'q', 'r', 's', 't', 'u', 'v', 'w', 'x', 'y', 'z']

/-- The case folding the specification of `cmp::icmp` names, written from its
words and not from the code: each of `'A'`-`'Z'` is mapped to the lower-case
letter at the same place of the alphabet, every other character value is left
as it is. -/
def spec_case_fold (c : Int) : Int :=
  match (ascii_upper.zip ascii_lower).find? (fun p => (p.1.toNat : Int) = c) with
  | some p => (p.2.toNat : Int)
  | none => c

/-! ## `conversions::to_base64` and `conversions::from_base64` -/

/-- Modelled from the spec: the header only declares `conversions::to_base64`
and `conversions::from_base64`, their bodies are missing.  This is the character
of the "standard RFC 4648 base64 alphabet" (`A`-`Z`, `a`-`z`, `0`-`9`, `+`, `/`)
for a 6-bit value. -/
def base64_symbol (v : Nat) : Nat :=
  if v < 26 then 65 + v
  else if v < 52 then 97 + (v - 26)
  else if v < 62 then 48 + (v - 52)
  else if v = 62 then 43
  else 47

/-- Modelled from the spec: the padding character `=` of the missing base64
functions. -/
def base64_pad : Nat := 61

/-- Modelled from the spec: the 6-bit value of a character of the RFC 4648
alphabet, for the missing body of `conversions::from_base64`; every other
character, the padding character included, is an "invalid alphabet character". -/
def base64_value (c : Nat) : Option Nat :=
  if 65 ≤ c ∧ c ≤ 90 then some (c - 65)
  else if 97 ≤ c ∧ c ≤ 122 then some (c - 97 + 26)
  else if 48 ≤ c ∧ c ≤ 57 then some (c - 48 + 52)
  else if c = 43 then some 62
  else if c = 47 then some 63
  else none

/-- Modelled from the spec: the missing body of `conversions::to_base64` on a
byte sequence, "standard RFC 4648 base64 alphabet with `=` padding": three bytes
give four characters of 6 bits each, and a final group of one or two bytes is
padded to four characters. -/
def to_base64 : List Nat → List Nat
  | [] => []
  | [a] => [base64_symbol (a / 4), base64_symbol (a % 4 * 16), base64_pad, base64_pad]
  | [a, b] =>
    [base64_symbol (a / 4), base64_symbol (a % 4 * 16 + b / 16),
     base64_symbol (b % 16 * 4), base64_pad]
  | a :: b :: c :: rest =>
    base64_symbol (a / 4) :: base64_symbol (a % 4 * 16 + b / 16)
      :: base64_symbol (b % 16 * 4 + c / 64) :: base64_symbol (c % 64)
      :: to_base64 rest

/-- Modelled from the spec: the missing body of `conversions::from_base64`, with
`none` for `DecodeError`.  The input is walked "4 characters at a time",
"consuming 6 bits per character" and emitting a byte "after the 2nd, 3rd and 4th
character of each quartet"; `=` is "legal only in the final quartet, and only in
the last 1-2 positions"; an "invalid length (not a multiple of 4 after padding)"
or an "invalid alphabet character" is rejected. -/
def from_base64 : List Nat → Option (List Nat)
  | [] => some []
  | c1 :: c2 :: c3 :: c4 :: rest =>
    match base64_value c1, base64_value c2 with
    | some v1, some v2 =>
      if c3 = base64_pad then
        if c4 = base64_pad ∧ rest = [] then some [v1 * 4 + v2 / 16] else none
      else
        match base64_value c3 with
        | none => none
        | some v3 =>
          if c4 = base64_pad then
            if rest = [] then some [v1 * 4 + v2 / 16, v2 % 16 * 16 + v3 / 4]
            else none
          else
            match base64_value c4, from_base64 rest with
            | some v4, some bytes =>
              some ((v1 * 4 + v2 / 16) :: (v2 % 16 * 16 + v3 / 4)
                :: (v3 % 4 * 64 + v4) :: bytes)
            | _, _ => none
    | _, _ => none
  | _ => none

/-! ## Theorems -/

theorem UINT64_MOD_eq : UINT64_MOD = 18446744073709551616 := by decide

theorem UINT32_MOD_eq : UINT32_MOD = 4294967296 := by decide

theorem _msTicks_eq : datetime._msTicks = 10000 := by decide

theorem _secondTicks_eq : datetime._secondTicks = 10000000 := by decide

theorem _minuteTicks_eq : datetime._minuteTicks = 600000000 := by decide

theorem _hourTicks_eq : datetime._hourTicks = 36000000000 := by decide

theorem _dayTicks_eq : datetime._dayTicks = 864000000000 := by decide

theorem utc_timestamp_invalid_eq :
    datetime.utc_timestamp_invalid = 18446744073709551615 := by decide

/-- Subtraction in `uint64_t` of a smaller value from a larger one is exact. -/
theorem sub64_of_le (a b : Nat) (ha : a < UINT64_MOD) (hb : b ≤ a) :
    sub64 a b = a - b := by
  simp only [sub64, UINT64_MOD_eq] at *
  omega

/-- Conversion to `int` is the identity below `2 ^ 31`. -/
theorem to_int_of_lt (x : Nat) (hx : x < 2 ^ 31) : to_int x = (x : Int) := by
  simp only [to_int, UINT32_MOD_eq]
  have h : x % 4294967296 = x := Nat.mod_eq_of_lt (by omega)
  rw [h, if_pos hx]

/-- C1: the code at the failing input.  For `t1` one second and `t2` two seconds
after the epoch, so `t1` earlier than `t2`, the free `operator-` returns
2133437385, which is positive, while the signed tick delta divided by
10,000,000 with truncation is -1, a value the `int` result can hold. -/
theorem operator_sub_earlier_failing_input :
    datetime.wf ⟨10000000⟩ ∧ datetime.wf ⟨20000000⟩ ∧
    (⟨10000000⟩ : datetime).to_interval < (⟨20000000⟩ : datetime).to_interval ∧
    operator_sub ⟨10000000⟩ ⟨20000000⟩ = 2133437385 ∧
    spec_signed_seconds ⟨10000000⟩ ⟨20000000⟩ = -1 ∧
    operator_sub ⟨10000000⟩ ⟨20000000⟩ ≠ spec_signed_seconds ⟨10000000⟩ ⟨20000000⟩ ∧
    ¬ (operator_sub ⟨10000000⟩ ⟨20000000⟩ ≤ 0) ∧
    to_int (2 ^ 32 - 1) = -1 := by
  decide

/-- Where `t1` is not earlier than `t2` and the two are fewer than `2 ^ 31`
whole seconds apart, the free `operator-` returns the tick delta divided by
10,000,000 with truncation, and the result is not negative. -/
theorem operator_sub_later (t1 t2 : datetime) (h1 : t1.wf)
    (hle : t2.to_interval ≤ t1.to_interval)
    (hlt : (t1.to_interval - t2.to_interval) / 10000000 < 2 ^ 31) :
    operator_sub t1 t2 = spec_signed_seconds t1 t2 ∧ 0 ≤ operator_sub t1 t2 := by
  obtain ⟨a⟩ := t1
  obtain ⟨b⟩ := t2
  simp only [datetime.wf, datetime.to_interval] at h1 hle hlt
  have hs : sub64 a b = a - b := sub64_of_le a b h1 hle
  have hm : (10 * 1000 * 1000) % UINT64_MOD = 10000000 := by decide
  have hr : operator_sub ⟨a⟩ ⟨b⟩ = (((a - b) / 10000000 : Nat) : Int) := by
    simp only [operator_sub, hs, hm]
    exact to_int_of_lt _ hlt
  have hspec : spec_signed_seconds ⟨a⟩ ⟨b⟩ = (((a - b) / 10000000 : Nat) : Int) := by
    simp only [spec_signed_seconds, datetime.to_interval]
    rw [← Nat.cast_sub hle]
    rfl
  rw [hr, hspec]
  exact ⟨rfl, Int.ofNat_nonneg _⟩

theorem operator_sub_later_witness :
    operator_sub ⟨132223104050000000⟩ ⟨132223104000000000⟩
        = spec_signed_seconds ⟨132223104050000000⟩ ⟨132223104000000000⟩ ∧
      0 ≤ operator_sub ⟨132223104050000000⟩ ⟨132223104000000000⟩ :=
  operator_sub_later ⟨132223104050000000⟩ ⟨132223104000000000⟩
    (by decide) (by decide) (by decide)

/-- C2: for every datetime `t`, also one within 50,000,000 ticks of `2 ^ 64`
where the addition wraps, `(t + datetime::from_seconds(5)) - t == 5`. -/
theorem add_from_seconds_five_sub (t : datetime) (h : t.wf) :
    operator_sub (t.operator_add (datetime.from_seconds 5)) t = 5 := by
  obtain ⟨a⟩ := t
  simp only [datetime.wf] at h
  have h5 : datetime.from_seconds 5 = 50000000 := by decide
  have hm : (10 * 1000 * 1000) % UINT64_MOD = 10000000 := by decide
  have hd : sub64 (add64 a 50000000) a = 50000000 := by
    simp only [sub64, add64, UINT64_MOD_eq] at *
    omega
  simp only [operator_sub, datetime.operator_add, h5, hd, hm]
  decide

theorem add_from_seconds_five_sub_witness :
    operator_sub
      ((⟨18446744073709551615⟩ : datetime).operator_add (datetime.from_seconds 5))
      ⟨18446744073709551615⟩ = 5 :=
  add_from_seconds_five_sub ⟨18446744073709551615⟩ (by decide)

/-- No code unit of `c_str()` is the terminator. -/
theorem c_str_ne_zero (s : string_t) : ∀ c ∈ c_str s, c ≠ 0 := by
  intro c hc
  have h := List.mem_takeWhile_imp hc
  simpa using h

/-- Case folding keeps a unit that is not the terminator away from it. -/
theorem c_tolower_ne_zero (c : Nat) (hc : c ≠ 0) : c_tolower c ≠ 0 := by
  unfold c_tolower
  split <;> omega

/-- On C strings `strcasecmp` is zero exactly for strings that agree after case
folding. -/
theorem strcasecmp_eq_zero_iff (l r : List Nat) (hl : ∀ c ∈ l, c ≠ 0)
    (hr : ∀ c ∈ r, c ≠ 0) :
    strcasecmp l r = 0 ↔ l.map c_tolower = r.map c_tolower := by
  induction l generalizing r with
  | nil =>
    cases r with
    | nil => simp [strcasecmp]
    | cons b rs =>
      have hb := c_tolower_ne_zero b (hr b (List.mem_cons_self b rs))
      simp only [strcasecmp, List.map_nil, List.map_cons]
      constructor
      · intro h; omega
      · intro h; simp at h
  | cons a ls ih =>
    cases r with
    | nil =>
      have ha := c_tolower_ne_zero a (hl a (List.mem_cons_self a ls))
      simp only [strcasecmp, List.map_nil, List.map_cons]
      constructor
      · intro h; omega
      · intro h; simp at h
    | cons b rs =>
      have hls : ∀ c ∈ ls, c ≠ 0 := fun c hc => hl c (List.mem_cons_of_mem a hc)
      have hrs : ∀ c ∈ rs, c ≠ 0 := fun c hc => hr c (List.mem_cons_of_mem b hc)
      simp only [strcasecmp, List.map_cons, List.cons.injEq]
      by_cases hab : c_tolower a = c_tolower b
      · rw [if_pos hab, ih rs hls hrs]
        simp [hab]
      · rw [if_neg hab]
        constructor
        · intro h; omega
        · intro h; exact absurd h.1 hab

/-- C3: the branch of `details::str_icmp` compiled without `_WIN32` returns the
`int` of `strcasecmp` as the `bool`, so it is `true` exactly when the two C
strings are NOT equivalent under case-insensitive comparison, and
`str_icmp(s, s)` is `false` for every `s`; the `_WIN32` branch, which compares
the result with zero, is `true` exactly for equivalent C strings. -/
theorem str_icmp_posix_inverted (left right : string_t) :
    str_icmp false left left = false ∧
    (str_icmp false left right = true ↔ ¬ icase_equiv (c_str left) (c_str right)) ∧
    (str_icmp true left right = true ↔ icase_equiv (c_str left) (c_str right)) := by
  have key := strcasecmp_eq_zero_iff (c_str left) (c_str right)
    (c_str_ne_zero left) (c_str_ne_zero right)
  have self := (strcasecmp_eq_zero_iff (c_str left) (c_str left)
    (c_str_ne_zero left) (c_str_ne_zero left)).mpr rfl
  refine ⟨?_, ?_, ?_⟩
  · simp [str_icmp, self]
  · simp [str_icmp, icase_equiv, key]
  · simp [str_icmp, _wcsicmp, icase_equiv, key]

/-- C4: for every unsigned 32-bit `n`, `from_milliseconds(n)`, `from_seconds(n)`
and `from_minutes(n)` are the exact products `n * 10,000`, `n * 10,000,000` and
`n * 600,000,000`: the 64-bit multiplication does not wrap. -/
theorem from_small_units_exact (n : Nat) (hn : n < UINT32_MOD) :
    datetime.from_milliseconds n = n * 10000 ∧
    datetime.from_seconds n = n * 10000000 ∧
    datetime.from_minutes n = n * 600000000 := by
  simp only [datetime.from_milliseconds, datetime.from_seconds,
    datetime.from_minutes, mul64, _msTicks_eq, _secondTicks_eq, _minuteTicks_eq,
    UINT64_MOD_eq, UINT32_MOD_eq] at *
  omega

theorem from_small_units_exact_witness :
    datetime.from_milliseconds 4294967295 = 4294967295 * 10000 ∧
    datetime.from_seconds 4294967295 = 4294967295 * 10000000 ∧
    datetime.from_minutes 4294967295 = 4294967295 * 600000000 :=
  from_small_units_exact 4294967295 (by decide)

/-- C5 (counterexample): at the unsigned 32-bit input 4294967295 neither
`from_hours` nor `from_days` returns the true product; both wrap. -/
theorem from_hours_days_wrap_counterexample :
    4294967295 < UINT32_MOD ∧
    datetime.from_hours 4294967295 = 7044870030323587072 ∧
    datetime.from_hours 4294967295 ≠ 4294967295 * 36000000000 ∧
    datetime.from_days 4294967295 = 3056184064380125184 ∧
    datetime.from_days 4294967295 ≠ 4294967295 * 864000000000 := by
  decide

/-- C5 (amended): for every unsigned 32-bit `n`, `from_hours(n)` is
`n * 36,000,000,000` reduced modulo `2 ^ 64` and `from_days(n)` is
`n * 864,000,000,000` reduced modulo `2 ^ 64`; the result is the true product
exactly when `n <= 512,409,557` (hours), respectively `n <= 21,350,398` (days). -/
theorem from_hours_days_mod (n : Nat) (hn : n < UINT32_MOD) :
    datetime.from_hours n = (n * 36000000000) % 2 ^ 64 ∧
    datetime.from_days n = (n * 864000000000) % 2 ^ 64 ∧
    (datetime.from_hours n = n * 36000000000 ↔ n ≤ 512409557) ∧
    (datetime.from_days n = n * 864000000000 ↔ n ≤ 21350398) := by
  simp only [datetime.from_hours, datetime.from_days, mul64, _hourTicks_eq,
    _dayTicks_eq, UINT64_MOD_eq, UINT32_MOD_eq] at *
  refine ⟨by norm_num, by norm_num, ?_, ?_⟩ <;> omega

theorem from_hours_days_mod_witness :
    datetime.from_hours 512409558 = (512409558 * 36000000000) % 2 ^ 64 ∧
    datetime.from_days 512409558 = (512409558 * 864000000000) % 2 ^ 64 ∧
    (datetime.from_hours 512409558 = 512409558 * 36000000000 ↔ 512409558 ≤ 512409557) ∧
    (datetime.from_days 512409558 = 512409558 * 864000000000 ↔ 512409558 ≤ 21350398) :=
  from_hours_days_mod 512409558 (by decide)

/-- C6: with the clock reading an arbitrary 64-bit tick value `k`,
`utc_timestamp()` returns `floor(k / 10,000,000) - 11,644,473,600` when
`floor(k / 10,000,000) >= 11,644,473,600`, a value that is not negative and
differs from the sentinel, and returns `utc_timestamp_invalid`, which is
`2 ^ 64 - 1`, otherwise. -/
theorem utc_timestamp_spec (k : Nat) (hk : k < UINT64_MOD) :
    (11644473600 ≤ k / 10000000 →
      ((datetime.utc_timestamp ⟨k⟩ : Nat) : Int) = ((k / 10000000 : Nat) : Int) - 11644473600 ∧
      datetime.utc_timestamp ⟨k⟩ ≠ datetime.utc_timestamp_invalid) ∧
    (k / 10000000 < 11644473600 →
      datetime.utc_timestamp ⟨k⟩ = datetime.utc_timestamp_invalid) ∧
    datetime.utc_timestamp_invalid = 2 ^ 64 - 1 := by
  have hc : 11644473600 % UINT64_MOD = 11644473600 := by decide
  simp only [datetime.utc_timestamp, datetime.to_interval, _secondTicks_eq, hc,
    utc_timestamp_invalid_eq]
  simp only [UINT64_MOD_eq] at hk
  refine ⟨?_, ?_, by norm_num⟩
  · intro h
    have hlt : k / 10000000 < UINT64_MOD := by
      simp only [UINT64_MOD_eq]; omega
    rw [if_pos h, sub64_of_le _ _ hlt h]
    constructor <;> omega
  · intro h
    rw [if_neg (by omega)]

theorem utc_timestamp_spec_witness :
    (11644473600 ≤ 132223104000000000 / 10000000 →
      ((datetime.utc_timestamp ⟨132223104000000000⟩ : Nat) : Int)
        = ((132223104000000000 / 10000000 : Nat) : Int) - 11644473600 ∧
      datetime.utc_timestamp ⟨132223104000000000⟩ ≠ datetime.utc_timestamp_invalid) ∧
    (132223104000000000 / 10000000 < 11644473600 →
      datetime.utc_timestamp ⟨132223104000000000⟩ = datetime.utc_timestamp_invalid) ∧
    datetime.utc_timestamp_invalid = 2 ^ 64 - 1 :=
  utc_timestamp_spec 132223104000000000 (by decide)

/-- C7: for every datetime `t` and 64-bit delta `d`, `(t + d).to_interval()` is
`(t.to_interval() + d) mod 2 ^ 64` and `(t - d).to_interval()` is
`(t.to_interval() - d) mod 2 ^ 64`; both operators are total and their results
are again 64-bit tick values. -/
theorem member_add_sub_wrap (t : datetime) (d : Nat) (ht : t.wf)
    (_hd : d < UINT64_MOD) :
    (((t.operator_add d).to_interval : Nat) : Int)
        = ((t.to_interval : Int) + (d : Int)) % (2 ^ 64 : Int) ∧
    (((t.operator_sub d).to_interval : Nat) : Int)
        = ((t.to_interval : Int) - (d : Int)) % (2 ^ 64 : Int) ∧
    (t.operator_add d).wf ∧ (t.operator_sub d).wf := by
  obtain ⟨a⟩ := t
  simp only [datetime.wf, datetime.operator_add, datetime.operator_sub,
    datetime.to_interval, add64, sub64, UINT64_MOD_eq] at *
  norm_num
  omega

theorem member_add_sub_wrap_witness :
    ((((⟨3⟩ : datetime).operator_add 18446744073709551615).to_interval : Nat) : Int)
        = (((⟨3⟩ : datetime).to_interval : Int) + ((18446744073709551615 : Nat) : Int))
            % (2 ^ 64 : Int) ∧
    ((((⟨3⟩ : datetime).operator_sub 18446744073709551615).to_interval : Nat) : Int)
        = (((⟨3⟩ : datetime).to_interval : Int) - ((18446744073709551615 : Nat) : Int))
            % (2 ^ 64 : Int) ∧
    ((⟨3⟩ : datetime).operator_add 18446744073709551615).wf ∧
    ((⟨3⟩ : datetime).operator_sub 18446744073709551615).wf :=
  member_add_sub_wrap ⟨3⟩ 18446744073709551615 (by decide) (by decide)

/-- C8: a default-constructed datetime has `to_interval() == 0` and
`is_initialized() == false`, and for every datetime `t`, `t.is_initialized()` is
true if and only if `t.to_interval() != 0`. -/
theorem is_initialized_iff :
    datetime.ctor_default.to_interval = 0 ∧
    datetime.ctor_default.is_initialized = false ∧
    ∀ t : datetime, t.is_initialized = true ↔ t.to_interval ≠ 0 := by
  refine ⟨rfl, rfl, ?_⟩
  intro t
  simp [datetime.is_initialized, datetime.to_interval]

/-- C9 (counterexample): for the clock reading `k = 132223104000000000` ticks
(2020-01-01T00:00:00Z) the constructor seeds the engine with 1577836800, the
Unix timestamp in seconds, while `k mod 2 ^ 32` is 1761935360. -/
theorem nonce_seed_counterexample :
    datetime.wf ⟨132223104000000000⟩ ∧
    (nonce_generator.ctor ⟨132223104000000000⟩ nonce_generator.default_length).m_random
      = 1577836800 ∧
    132223104000000000 % 2 ^ 32 = 1761935360 ∧
    (nonce_generator.ctor ⟨132223104000000000⟩ nonce_generator.default_length).m_random
      ≠ 132223104000000000 % 2 ^ 32 := by
  decide

/-- C9 (amended): with the clock reading an arbitrary 64-bit tick value `k`, the
seed of the engine is the value of `utc_timestamp()` truncated to 32 bits:
`(floor(k / 10,000,000) - 11,644,473,600) mod 2 ^ 32` when
`floor(k / 10,000,000) >= 11,644,473,600`, and `2 ^ 32 - 1` otherwise. -/
theorem nonce_seed_unix_seconds (k : Nat) (length : Int) (hk : k < UINT64_MOD) :
    (nonce_generator.ctor ⟨k⟩ length).m_random
        = datetime.utc_timestamp ⟨k⟩ % 2 ^ 32 ∧
    (11644473600 ≤ k / 10000000 →
      (nonce_generator.ctor ⟨k⟩ length).m_random
        = (k / 10000000 - 11644473600) % 2 ^ 32) ∧
    (k / 10000000 < 11644473600 →
      (nonce_generator.ctor ⟨k⟩ length).m_random = 2 ^ 32 - 1) ∧
    (nonce_generator.ctor ⟨k⟩ length).m_length = length := by
  have hc : 11644473600 % UINT64_MOD = 11644473600 := by decide
  have hlt : k / 10000000 < UINT64_MOD := by
    simp only [UINT64_MOD_eq] at *; omega
  simp only [nonce_generator.ctor, to_unsigned_int, datetime.utc_timestamp,
    datetime.to_interval, _secondTicks_eq, hc, utc_timestamp_invalid_eq]
  refine ⟨by simp only [UINT32_MOD_eq]; norm_num, ?_, ?_, trivial⟩
  · intro h
    rw [if_pos h, sub64_of_le _ _ hlt h]
    simp only [UINT32_MOD_eq]; norm_num
  · intro h
    rw [if_neg (by omega)]
    decide

theorem nonce_seed_unix_seconds_witness :
    (nonce_generator.ctor ⟨132223104000000000⟩ 32).m_random
        = datetime.utc_timestamp ⟨132223104000000000⟩ % 2 ^ 32 ∧
    (11644473600 ≤ 132223104000000000 / 10000000 →
      (nonce_generator.ctor ⟨132223104000000000⟩ 32).m_random
        = (132223104000000000 / 10000000 - 11644473600) % 2 ^ 32) ∧
    (132223104000000000 / 10000000 < 11644473600 →
      (nonce_generator.ctor ⟨132223104000000000⟩ 32).m_random = 2 ^ 32 - 1) ∧
    (nonce_generator.ctor ⟨132223104000000000⟩ 32).m_length = 32 :=
  nonce_seed_unix_seconds 132223104000000000 32 (by decide)

/-- C10 (counterexample): the initialized datetime with tick value 5 minus the
delta 5 is the zero value, which is not initialized. -/
theorem sub_reaches_zero_counterexample :
    datetime.wf ⟨5⟩ ∧ 5 < UINT64_MOD ∧
    (⟨5⟩ : datetime).is_initialized = true ∧
    ((⟨5⟩ : datetime).operator_sub 5).to_interval = 0 ∧
    ((⟨5⟩ : datetime).operator_sub 5).is_initialized = false := by
  decide

/-- C10 (amended): for every initialized datetime `t` and every 64-bit delta
`d`, `t - d` is initialized exactly when `d != t.to_interval()`, and `t + d` is
initialized exactly when `d != 2 ^ 64 - t.to_interval()`. -/
theorem add_sub_initialized_iff (t : datetime) (d : Nat) (ht : t.wf)
    (hd : d < UINT64_MOD) (hi : t.is_initialized = true) :
    ((t.operator_sub d).is_initialized = true ↔ d ≠ t.to_interval) ∧
    ((t.operator_add d).is_initialized = true ↔ d ≠ 2 ^ 64 - t.to_interval) := by
  obtain ⟨a⟩ := t
  simp only [datetime.wf, datetime.operator_add, datetime.operator_sub,
    datetime.to_interval, datetime.is_initialized, add64, sub64, UINT64_MOD_eq,
    bne_iff_ne, ne_eq] at *
  norm_num
  omega

theorem add_sub_initialized_iff_witness :
    (((⟨7⟩ : datetime).operator_sub 7).is_initialized = true
        ↔ 7 ≠ (⟨7⟩ : datetime).to_interval) ∧
    (((⟨7⟩ : datetime).operator_add 7).is_initialized = true
        ↔ 7 ≠ 2 ^ 64 - (⟨7⟩ : datetime).to_interval) :=
  add_sub_initialized_iff ⟨7⟩ 7 (by decide) (by decide) (by decide)

/-- Every ASCII alphanumeric character has its high bit clear. -/
theorem ascii_alnum_lt : ∀ c ∈ ascii_alnum, c.toNat < 128 := by decide

/-- C11: for every value `ch` of a `char`, whether `char` is signed or unsigned,
`details::is_alnum(ch)` is true if and only if `ch` is one of the 62 ASCII
alphanumeric characters `'0'`-`'9'`, `'A'`-`'Z'`, `'a'`-`'z'`; a byte with the
high bit set is never accepted. -/
theorem is_alnum_iff :
    ascii_alnum.length = 62 ∧ ascii_alnum.Nodup ∧
    (∀ ch : Int, is_alnum ch = true ↔ ∃ c ∈ ascii_alnum, ch = (c.toNat : Int)) ∧
    (∀ (signed_char : Bool) (b : Nat), b < 256 →
      (is_alnum (char_of_byte signed_char b) = true
        ↔ ∃ c ∈ ascii_alnum, b = c.toNat)) := by
  have hall : ∀ ch : Int,
      is_alnum ch = true ↔ ∃ c ∈ ascii_alnum, ch = (c.toNat : Int) := by
    intro ch
    constructor
    · intro h
      simp only [is_alnum, Bool.or_eq_true, Bool.and_eq_true, decide_eq_true_eq] at h
      have hlo : 48 ≤ ch := by omega
      have hhi : ch ≤ 122 := by omega
      interval_cases ch <;> first | omega | decide
    · rintro ⟨c, hc, rfl⟩
      revert c
      decide
  refine ⟨by decide, by decide, hall, ?_⟩
  intro signed_char b hb
  rw [hall]
  constructor
  · rintro ⟨c, hc, h⟩
    refine ⟨c, hc, ?_⟩
    have hlt : c.toNat < 128 := ascii_alnum_lt c hc
    unfold char_of_byte at h
    split at h <;> omega
  · rintro ⟨c, hc, rfl⟩
    refine ⟨c, hc, ?_⟩
    have hlt : c.toNat < 128 := ascii_alnum_lt c hc
    unfold char_of_byte
    split
    · rename_i hs
      simp only [Bool.and_eq_true, decide_eq_true_eq] at hs
      omega
    · rfl

/-- Adding a 64-bit delta to a tick value and subtracting the tick value again,
both in `uint64_t`, gives the delta back. -/
theorem sub64_add64_cancel (a d : Nat) (hd : d < UINT64_MOD) :
    sub64 (add64 a d) a = d := by
  simp only [sub64, add64, UINT64_MOD_eq] at *
  omega

/-- C13: for every datetime `t` and every 64-bit delta `d`, `(t + d) - d == t`
and `(t - d) + d == t` under `datetime::operator==`, also when the intermediate
addition or subtraction wraps around `2 ^ 64`. -/
theorem member_add_sub_cancel (t : datetime) (d : Nat) (ht : t.wf)
    (_hd : d < UINT64_MOD) :
    datetime.operator_eq ((t.operator_add d).operator_sub d) t = true ∧
    datetime.operator_eq ((t.operator_sub d).operator_add d) t = true := by
  obtain ⟨a⟩ := t
  simp only [datetime.wf, datetime.operator_eq, datetime.operator_add,
    datetime.operator_sub, add64, sub64, UINT64_MOD_eq, beq_iff_eq] at *
  omega

theorem member_add_sub_cancel_witness :
    datetime.operator_eq
      (((⟨18446744073709551615⟩ : datetime).operator_add 7).operator_sub 7)
      ⟨18446744073709551615⟩ = true ∧
    datetime.operator_eq
      (((⟨3⟩ : datetime).operator_sub 7).operator_add 7) ⟨3⟩ = true :=
  ⟨(member_add_sub_cancel ⟨18446744073709551615⟩ 7 (by decide) (by decide)).1,
   (member_add_sub_cancel ⟨3⟩ 7 (by decide) (by decide)).2⟩

/-- C14: for every datetime `t` and every unsigned 32-bit `n` with
`n <= 2,147,483,647`, `(t + datetime::from_seconds(n)) - t == n`; and for every
tick delta `d < 2 ^ 64` with `floor(d / 10,000,000) <= 2,147,483,647`,
`(t + d) - t == floor(d / 10,000,000)`: a sub-second remainder is truncated. -/
theorem add_sub_whole_seconds (t : datetime) (n d : Nat) (ht : t.wf)
    (hn : n ≤ 2147483647) (hd : d < UINT64_MOD)
    (hq : d / 10000000 ≤ 2147483647) :
    operator_sub (t.operator_add (datetime.from_seconds n)) t = (n : Int) ∧
    operator_sub (t.operator_add d) t = ((d / 10000000 : Nat) : Int) := by
  obtain ⟨a⟩ := t
  simp only [datetime.wf] at ht
  have hm : (10 * 1000 * 1000) % UINT64_MOD = 10000000 := by decide
  have hgen : ∀ e : Nat, e < UINT64_MOD → e / 10000000 ≤ 2147483647 →
      operator_sub (datetime.operator_add ⟨a⟩ e) ⟨a⟩ = ((e / 10000000 : Nat) : Int) := by
    intro e he hqe
    simp only [operator_sub, datetime.operator_add, sub64_add64_cancel a e he, hm]
    exact to_int_of_lt _ (by omega)
  have hs : datetime.from_seconds n = n * 10000000 := by
    simp only [datetime.from_seconds, mul64, _secondTicks_eq, UINT64_MOD_eq]
    omega
  refine ⟨?_, hgen d hd hq⟩
  rw [hs, hgen (n * 10000000) (by simp only [UINT64_MOD_eq]; omega) (by omega)]
  congr 1
  omega

theorem add_sub_whole_seconds_witness :
    operator_sub
      ((⟨18446744073709551615⟩ : datetime).operator_add
        (datetime.from_seconds 2147483647))
      ⟨18446744073709551615⟩ = ((2147483647 : Nat) : Int) ∧
    operator_sub
      ((⟨18446744073709551615⟩ : datetime).operator_add 21474836479999999)
      ⟨18446744073709551615⟩ = ((21474836479999999 / 10000000 : Nat) : Int) :=
  add_sub_whole_seconds ⟨18446744073709551615⟩ 2147483647 21474836479999999
    (by decide) (by decide) (by decide) (by decide)


/-- The loop of `cmp::icmp` returns 0, 1 or -1. -/
theorem icmp_loop_range (left right : List Int) (n i : Nat) :
    cmp.icmp_loop left right n i = 0 ∨ cmp.icmp_loop left right n i = 1 ∨
      cmp.icmp_loop left right n i = -1 := by
  induction n generalizing i with
  | zero =>
    simp only [cmp.icmp_loop]
    split <;> simp
  | succ n ih =>
    simp only [cmp.icmp_loop]
    split
    · simp
    · split
      · simp
      · split
        · simp
        · exact ih (i + 1)

/-- The loop of `cmp::icmp`, entered at index `i` with `n` iterations left,
returns 0 exactly when the strings have the same length and agree after
`cmp::tolower` at every index from `i` on. -/
theorem icmp_loop_eq_zero_iff (left right : List Int) (n i : Nat)
    (hn : i + n = left.length) (hi : i ≤ right.length) :
    cmp.icmp_loop left right n i = 0 ↔
      left.length = right.length ∧
      ∀ j, i ≤ j → j < left.length →
        cmp.tolower (left.getD j 0) = cmp.tolower (right.getD j 0) := by
  induction n generalizing i with
  | zero =>
    simp only [cmp.icmp_loop]
    constructor
    · intro h
      split at h
      · omega
      · exact ⟨by omega, fun j h1 h2 => by omega⟩
    · rintro ⟨h, -⟩
      rw [if_neg (by omega)]
  | succ n ih =>
    simp only [cmp.icmp_loop]
    by_cases h1 : i = right.length
    · rw [if_pos h1]
      constructor
      · intro h; omega
      · rintro ⟨h, -⟩; omega
    · rw [if_neg h1]
      by_cases h2 : cmp.tolower (left.getD i 0) > cmp.tolower (right.getD i 0)
      · rw [if_pos h2]
        constructor
        · intro h; omega
        · rintro ⟨-, h⟩
          have := h i le_rfl (by omega)
          omega
      · rw [if_neg h2]
        by_cases h3 : cmp.tolower (left.getD i 0) < cmp.tolower (right.getD i 0)
        · rw [if_pos h3]
          constructor
          · intro h; omega
          · rintro ⟨-, h⟩
            have := h i le_rfl (by omega)
            omega
        · rw [if_neg h3, ih (i + 1) (by omega) (by omega)]
          constructor
          · rintro ⟨hl, h⟩
            refine ⟨hl, fun j hj1 hj2 => ?_⟩
            by_cases hji : j = i
            · subst hji; omega
            · exact h j (by omega) hj2
          · rintro ⟨hl, h⟩
            exact ⟨hl, fun j hj1 hj2 => h j (by omega) hj2⟩

/-- Every upper-case letter has a character value in `65..90`. -/
theorem ascii_upper_range :
    ∀ p ∈ ascii_upper.zip ascii_lower, 65 ≤ p.1.toNat ∧ p.1.toNat ≤ 90 := by
  decide

/-- The function `cmp::tolower` is the case folding of the specification: it
maps `'A'`-`'Z'` to `'a'`-`'z'` letter by letter and changes no other value. -/
theorem tolower_eq_spec_case_fold (c : Int) :
    cmp.tolower c = spec_case_fold c := by
  by_cases h : 65 ≤ c ∧ c ≤ 90
  · obtain ⟨h1, h2⟩ := h
    interval_cases c <;> rfl
  · have hnone : (ascii_upper.zip ascii_lower).find?
        (fun p => (p.1.toNat : Int) = c) = none := by
      rw [List.find?_eq_none]
      intro p hp
      have hr := ascii_upper_range p hp
      simp only [decide_eq_true_eq]
      omega
    unfold spec_case_fold cmp.tolower
    rw [hnone, if_neg (by omega)]

/-- C15: for all strings `left` and `right`, `cmp::icmp(left, right) == 0` if
and only if the two have the same length and, at every index, the same
character after mapping `'A'`-`'Z'` to `'a'`-`'z'`, which is what `cmp::tolower`
computes; in every other case the result is exactly 1 or -1.  The mapping is
stated through `spec_case_fold`, the table of the 26 letter pairs, so `"A"` and
`"a"` compare equal while `"A"` and `"b"` do not. -/
theorem icmp_eq_zero_iff (left right : List Int) :
    (cmp.icmp left right = 0 ↔
      left.length = right.length ∧
      ∀ j, j < left.length →
        spec_case_fold (left.getD j 0) = spec_case_fold (right.getD j 0)) ∧
    (cmp.icmp left right ≠ 0 →
      cmp.icmp left right = 1 ∨ cmp.icmp left right = -1) ∧
    (∀ c : Int, cmp.tolower c = spec_case_fold c) ∧
    (∀ p ∈ ascii_upper.zip ascii_lower,
      cmp.tolower (p.1.toNat : Int) = (p.2.toNat : Int) ∧
      cmp.icmp [(p.1.toNat : Int)] [(p.2.toNat : Int)] = 0) ∧
    cmp.icmp [65] [97] = 0 ∧ cmp.icmp [65] [98] = -1 := by
  refine ⟨?_, ?_, tolower_eq_spec_case_fold, by decide, by decide, by decide⟩
  · unfold cmp.icmp
    rw [icmp_loop_eq_zero_iff left right left.length 0 (by omega) (by omega)]
    simp only [tolower_eq_spec_case_fold]
    constructor
    · rintro ⟨hl, h⟩
      exact ⟨hl, fun j hj => h j (by omega) hj⟩
    · rintro ⟨hl, h⟩
      exact ⟨hl, fun j _ hj => h j hj⟩
  · intro h
    unfold cmp.icmp at *
    rcases icmp_loop_range left right left.length 0 with h0 | h1 | h2
    · exact absurd h0 h
    · exact Or.inl h1
    · exact Or.inr h2

/-- Swapping the two strings negates what the loop of `cmp::icmp` returns, when
both loops are entered at the same index. -/
theorem icmp_loop_antisymm (a b : List Int) (n m i : Nat)
    (hn : i + n = a.length) (hm : i + m = b.length) :
    cmp.icmp_loop a b n i = - cmp.icmp_loop b a m i := by
  induction n generalizing i m with
  | zero =>
    cases m with
    | zero =>
      simp only [cmp.icmp_loop]
      rw [if_neg (by omega), if_neg (by omega)]
      rfl
    | succ m =>
      simp only [cmp.icmp_loop]
      rw [if_pos (by omega), if_pos (by omega)]
  | succ n ih =>
    cases m with
    | zero =>
      simp only [cmp.icmp_loop]
      rw [if_pos (by omega), if_pos (by omega)]
      rfl
    | succ m =>
      have hL : cmp.icmp_loop a b (n + 1) i =
          if cmp.tolower (a.getD i 0) > cmp.tolower (b.getD i 0) then 1
          else if cmp.tolower (a.getD i 0) < cmp.tolower (b.getD i 0) then -1
          else cmp.icmp_loop a b n (i + 1) := by
        simp only [cmp.icmp_loop]
        exact if_neg (by omega)
      have hR : cmp.icmp_loop b a (m + 1) i =
          if cmp.tolower (b.getD i 0) > cmp.tolower (a.getD i 0) then 1
          else if cmp.tolower (b.getD i 0) < cmp.tolower (a.getD i 0) then -1
          else cmp.icmp_loop b a m (i + 1) := by
        simp only [cmp.icmp_loop]
        exact if_neg (by omega)
      rw [hL, hR]
      have hrec := ih m (i + 1) (by omega) (by omega)
      split_ifs <;> omega

/-- When `left` is shorter than `right` and agrees with it at every index it
has, the loop of `cmp::icmp` returns -1. -/
theorem icmp_loop_of_shorter (left right : List Int) (n i : Nat)
    (hn : i + n = left.length) (hlt : left.length < right.length)
    (hp : ∀ j, j < left.length → left.getD j 0 = right.getD j 0) :
    cmp.icmp_loop left right n i = -1 := by
  induction n generalizing i with
  | zero =>
    simp only [cmp.icmp_loop]
    rw [if_pos (by omega)]
  | succ n ih =>
    simp only [cmp.icmp_loop]
    have he := hp i (by omega)
    rw [if_neg (by omega), he, if_neg (by omega), if_neg (by omega)]
    exact ih (i + 1) (by omega)

/-- C16: `cmp::icmp` is antisymmetric, `cmp::icmp(a, b) == -cmp::icmp(b, a)` for
all strings `a` and `b`; a string compares as smaller than every string it is a
proper prefix of, the empty string included, and two empty strings compare
equal. -/
theorem icmp_antisymm (a b : List Int) (c : Int) (rest : List Int) :
    cmp.icmp a b = - cmp.icmp b a ∧
    cmp.icmp a (a ++ c :: rest) = -1 ∧
    cmp.icmp (a ++ c :: rest) a = 1 ∧
    cmp.icmp [] [] = 0 := by
  have anti : ∀ x y : List Int, cmp.icmp x y = - cmp.icmp y x := fun x y =>
    icmp_loop_antisymm x y x.length y.length 0 (by omega) (by omega)
  have hpre : cmp.icmp a (a ++ c :: rest) = -1 := by
    apply icmp_loop_of_shorter a (a ++ c :: rest) a.length 0 (by omega)
    · simp
    · intro j hj
      exact (List.getD_append a (c :: rest) 0 j hj).symm
  refine ⟨anti a b, hpre, ?_, by decide⟩
  rw [anti, hpre]
  rfl


/-- The value of the alphabet character for a 6-bit value is that value. -/
theorem base64_value_symbol (v : Nat) (hv : v < 64) :
    base64_value (base64_symbol v) = some v := by
  interval_cases v <;> rfl

/-- No alphabet character is the padding character. -/
theorem base64_symbol_ne_pad (v : Nat) : base64_symbol v ≠ base64_pad := by
  unfold base64_symbol base64_pad
  split_ifs <;> omega

/-- Decoding a quartet that encodes three bytes yields those bytes, followed by
the decoding of what comes after the quartet. -/
theorem from_base64_full_quartet (a b c : Nat) (rest : List Nat)
    (ha : a < 256) (hb : b < 256) (hc : c < 256) :
    from_base64
        (base64_symbol (a / 4) :: base64_symbol (a % 4 * 16 + b / 16)
          :: base64_symbol (b % 16 * 4 + c / 64) :: base64_symbol (c % 64) :: rest)
      = (from_base64 rest).map (fun bytes => a :: b :: c :: bytes) := by
  have h1 := base64_value_symbol (a / 4) (by omega)
  have h2 := base64_value_symbol (a % 4 * 16 + b / 16) (by omega)
  have h3 := base64_value_symbol (b % 16 * 4 + c / 64) (by omega)
  have h4 := base64_value_symbol (c % 64) (by omega)
  have e1 : a / 4 * 4 + (a % 4 * 16 + b / 16) / 16 = a := by omega
  have e2 : (a % 4 * 16 + b / 16) % 16 * 16 + (b % 16 * 4 + c / 64) / 4 = b := by omega
  have e3 : (b % 16 * 4 + c / 64) % 4 * 64 + c % 64 = c := by omega
  rw [from_base64]
  simp only [h1, h2, h3, h4, base64_symbol_ne_pad, if_false, e1, e2, e3]
  cases from_base64 rest <;> simp [e3]

/-- C12: for every byte sequence `b`, `from_base64(to_base64(b)) == b`: decoding
the encoding succeeds and returns the bytes that were encoded. -/
theorem from_base64_to_base64 (b : List Nat) (hb : ∀ x ∈ b, x < 256) :
    from_base64 (to_base64 b) = some b := by
  induction b using to_base64.induct with
  | case1 => rfl
  | case2 a =>
    have ha : a < 256 := hb a (by simp)
    have h1 := base64_value_symbol (a / 4) (by omega)
    have h2 := base64_value_symbol (a % 4 * 16) (by omega)
    simp [to_base64, from_base64, h1, h2]
    omega
  | case3 a c =>
    have ha : a < 256 := hb a (by simp)
    have hc : c < 256 := hb c (by simp)
    have h1 := base64_value_symbol (a / 4) (by omega)
    have h2 := base64_value_symbol (a % 4 * 16 + c / 16) (by omega)
    have h3 := base64_value_symbol (c % 16 * 4) (by omega)
    simp [to_base64, from_base64, h1, h2, h3, base64_symbol_ne_pad]
    omega
  | case4 a c d rest ih =>
    have ha : a < 256 := hb a (by simp)
    have hc : c < 256 := hb c (by simp)
    have hd : d < 256 := hb d (by simp)
    have hrest : ∀ x ∈ rest, x < 256 := fun x hx => hb x (by simp [hx])
    rw [to_base64, from_base64_full_quartet a c d _ ha hc hd, ih hrest]
    rfl

theorem from_base64_to_base64_witness :
    from_base64 (to_base64 [255, 0, 128, 7]) = some [255, 0, 128, 7] :=
  from_base64_to_base64 [255, 0, 128, 7] (by decide)

end utility
